import Mathlib

/-!
Verification of the joiql translator (src/index.js): a shallow embedding of
the Joi-description → GraphQL-type translator, its global type cache and
anonymous-name counter, the array/alternatives composite synthesizer, the
argument extractor and the validated resolver wrapper, together with
theorems settling the specification claims.

Modelling conventions:
* JavaScript's global mutable state (the `cachedTypes` object and lodash's
  `uniqueId` counter) is threaded explicitly as a `St` value.
* Machine recursion is mirrored with a fuel parameter; running out of fuel
  yields the distinguished `JErr.outOfFuel`, which never occurs for fuel
  larger than the description height (all theorems quantify over fuel).
* GraphQL node construction (`new GraphQLObjectType` …) allocates a fresh
  identity: nodes carry an allocation id drawn from `St.nextId`, so "the
  same node instance (reference equality)" is modelled as equality of the
  stored value, id included; two structurally equal nodes built separately
  always differ in their id.
* Runtime values flowing through resolvers and union `resolveType` are
  modelled as `JObj` (property name → opaque string value).
-/

/-- Runtime JavaScript value: opaque payload, rendered as a string. -/
abbrev JVal := String

/-- Runtime JavaScript object: property name to value, in key order. -/
abbrev JObj := List (String × JVal)

/-- User resolver signature `(source, args, root, fieldName) → value`,
as in `resolve(source, value, root, opts)` of src/index.js line 162. -/
abbrev ResolveFn := Option JObj → JObj → JVal → String → JVal

mutual
/-- Joi description node (the result of `schema.describe()`), src §3:
kind string, presence flag (`desc.flags.presence`), rule names
(`desc.rules[*].name`), object children, array items, alternatives
branches, metadata annotations and description text.  A missing `meta`
key is represented by the empty list (Joi only emits `meta` when
annotations exist). -/
inductive Desc : Type where
  | mk : String → Option String → List String → List (String × Desc) →
         List Desc → List Desc → List MetaE → Option String → Desc

/-- One metadata annotation `meta({ name?, args?, resolve?, isTypeOf? })`;
`args` maps argument names to the argument schema's description. -/
inductive MetaE : Type where
  | mk : Option String → Option (List (String × Desc)) → Option ResolveFn →
         Option (JObj → Bool) → MetaE
end

/-- Kind string of a description (`desc.type`). -/
def Desc.dtype : Desc → String
  | .mk t _ _ _ _ _ _ _ => t

/-- Presence flag of a description (`desc.flags.presence`). -/
def Desc.dpresence : Desc → Option String
  | .mk _ p _ _ _ _ _ _ => p

/-- Rule names of a description (`desc.rules`, names only). -/
def Desc.rules : Desc → List String
  | .mk _ _ r _ _ _ _ _ => r

/-- Object children of a description (`desc.children`); `[]` when absent. -/
def Desc.children : Desc → List (String × Desc)
  | .mk _ _ _ c _ _ _ _ => c

/-- Array items of a description (`desc.items`). -/
def Desc.items : Desc → List Desc
  | .mk _ _ _ _ i _ _ _ => i

/-- Alternatives branches of a description (`desc.alternatives`). -/
def Desc.alts : Desc → List Desc
  | .mk _ _ _ _ _ a _ _ => a

/-- Metadata annotations of a description (`desc.meta`). -/
def Desc.meta : Desc → List MetaE
  | .mk _ _ _ _ _ _ m _ => m

/-- Description text of a description (`desc.description`). -/
def Desc.descr : Desc → Option String
  | .mk _ _ _ _ _ _ _ d => d

/-- Name field of one metadata annotation. -/
def MetaE.name : MetaE → Option String
  | .mk n _ _ _ => n

/-- Args field of one metadata annotation. -/
def MetaE.args : MetaE → Option (List (String × Desc))
  | .mk _ a _ _ => a

/-- Resolve field of one metadata annotation. -/
def MetaE.resolve : MetaE → Option ResolveFn
  | .mk _ _ r _ => r

/-- IsTypeOf field of one metadata annotation. -/
def MetaE.isTypeOf : MetaE → Option (JObj → Bool)
  | .mk _ _ _ f => f

/-- GraphQL field configuration `{ type, args?, description? }`, generic
in the type-node representation.  The `resolve` entry of src/index.js
line 177 is a function and is modelled separately by `validatedResolve`
applied to the field's description. -/
structure FldG (T : Type) : Type where
  type : T
  args : Option (List (String × T))
  descr : Option String
deriving Repr, DecidableEq

/-- GraphQL type-graph node.  Composite nodes carry the allocation id
minted at their `new GraphQL…Type` call, modelling reference identity. -/
inductive Ty : Type where
  | boolean : Ty
  | strT : Ty
  | intT : Ty
  | floatT : Ty
  | obj : Nat → String → Option String → List (String × FldG Ty) → Ty
  | inputObj : Nat → String → Option String → List (String × FldG Ty) → Ty
  | union : Nat → String → Option String → List Ty → Ty
  | listT : Ty → Ty
  | nonNull : Ty → Ty
deriving Repr

/-- Field configuration instantiated at the type-graph nodes. -/
abbrev Fld := FldG Ty

/-- Global mutable state of src/index.js: the `cachedTypes` object
(line 41), lodash's `uniqueId` counter, and the allocation counter that
models object identity of constructed GraphQL nodes. -/
structure St : Type where
  cache : List (String × Ty)
  uid : Nat
  nextId : Nat
deriving Repr

/-- Empty initial state: fresh cache and counters. -/
def St.init : St := ⟨[], 0, 0⟩

/-- Lookup in the cache object (`cachedTypes[typeName]`). -/
def lookupCache : List (String × Ty) → String → Option Ty
  | [], _ => none
  | (k, t) :: rest, n => if k = n then some t else lookupCache rest n

/-- Lookup of a property in a JavaScript-object association list. -/
def lookupD : List (String × Desc) → String → Option Desc
  | [], _ => none
  | (k, d) :: rest, n => if k = n then some d else lookupD rest n

/-- Helper `presence(desc, name)` of src/index.js lines 34-37. -/
def jsPresence (d : Desc) (name : String) : Bool :=
  d.dpresence = some name

/-- Lodash `capitalize`: first character upper-cased, remainder
lower-cased; the empty string maps to itself. -/
def capitalize (s : String) : String :=
  match s.data with
  | [] => ""
  | c :: rest => String.mk (c.toUpper :: rest.map Char.toLower)

/-- Lodash `uniqueId()`: increments the process-wide counter and returns
its decimal rendering. -/
def jsUniqueId (st : St) : String × St :=
  (toString (st.uid + 1), { st with uid := st.uid + 1 })

/-- First element of `map(meta, 'name')`, i.e. the name carried by the
first metadata annotation (src/index.js line 49). -/
def firstMetaName (m : List MetaE) : Option String :=
  m.head?.bind MetaE.name

/-- First element of `map(meta, 'args')` (src/index.js lines 146, 159). -/
def firstMetaArgs (m : List MetaE) : Option (List (String × Desc)) :=
  m.head?.bind MetaE.args

/-- First element of `map(meta, 'isTypeOf')` (src/index.js line 133). -/
def firstMetaIsTypeOf (m : List MetaE) : Option (JObj → Bool) :=
  m.head?.bind MetaE.isTypeOf

/-- Resolve function read as `desc.meta && desc.meta[0].resolve`
(src/index.js line 157); an absent `meta` key is the empty list. -/
def firstMetaResolve (m : List MetaE) : Option ResolveFn :=
  m.head?.bind MetaE.resolve

/-- Type-name computation of src/index.js lines 47-50:
`(isInput ? 'Input' : '') + (map(desc.meta, 'name')[0] || 'Anon' + uniqueId())`.
An empty-string meta name is falsy in JavaScript and falls through to the
anonymous branch; the counter is consumed exactly when the fallback runs. -/
def computeTypeName (desc : Desc) (isInput : Bool) (st : St) : String × St :=
  let pre := if isInput then "Input" else ""
  match firstMetaName desc.meta with
  | some n =>
      if n = "" then
        let (u, st') := jsUniqueId st
        (pre ++ "Anon" ++ u, st')
      else (pre ++ n, st)
  | none =>
      let (u, st') := jsUniqueId st
      (pre ++ "Anon" ++ u, st')

/-- One component of the composite name of src/index.js lines 88-95:
`(d.meta && capitalize(d.meta.name)) || capitalize(d.type) || 'Anon'+uniqueId()`,
prefixed with `Input` in input position.  `d.meta` is an array, so its
`name` property is `undefined` and lodash `capitalize(undefined)` is the
empty string: the first disjunct is always falsy and the component falls
through to the capitalized kind (or, for an empty kind string, the
anonymous counter). -/
def compositeItemName (isInput : Bool) (d : Desc) (st : St) : String × St :=
  let base := capitalize d.dtype
  if base = "" then
    let (u, st') := jsUniqueId st
    ((if isInput then "Input" else "") ++ "Anon" ++ u, st')
  else ((if isInput then "Input" else "") ++ base, st)

/-- Component list underlying the composite name (`map(items, …)`). -/
def compositeNameParts (isInput : Bool) : List Desc → St → List String × St
  | [], st => ([], st)
  | d :: rest, st =>
      let (n, st') := compositeItemName isInput d st
      let (ns, st'') := compositeNameParts isInput rest st'
      (n :: ns, st'')

/-- Composite type name of a multi-item array: the components joined with
`'Or'` (src/index.js line 95). -/
def compositeName (isInput : Bool) (items : List Desc) (st : St) : String × St :=
  let (parts, st') := compositeNameParts isInput items st
  (String.intercalate "Or" parts, st')

/-- One step of `Object.assign` on association lists: an existing key is
overwritten in place, a new key is appended. -/
def assignPair (acc : List (String × Desc)) (kv : String × Desc) :
    List (String × Desc) :=
  if acc.any (fun p => p.1 = kv.1) then
    acc.map (fun p => if p.1 = kv.1 then (p.1, kv.2) else p)
  else acc ++ [kv]

/-- The flat merge `assign(...flatten(children))` of src/index.js
line 120: all sources merged left to right, later keys overwriting. -/
def assignAll (sources : List (List (String × Desc))) : List (String × Desc) :=
  sources.foldl (fun acc src => src.foldl assignPair acc) []

/-- Build-time failure: the kind-dispatch object of src/index.js
lines 52-109 holds no handler for the kind, so `{…}[desc.type]` is
`undefined` and invoking it raises a generic TypeError (`notAFunction`);
`outOfFuel` is the artefact of the fuel-indexed embedding. -/
inductive JErr : Type where
  | notAFunction : String → JErr
  | outOfFuel : JErr
deriving Repr, DecidableEq

mutual

/-- Embedding of `descToType` (src/index.js lines 46-111): compute the
type name (lines 47-50, consuming the anonymous counter exactly when the
first metadata annotation carries no truthy name), evaluate
`required = isInput && presence(desc, 'required')` (line 51), dispatch on
the kind (lines 52-109), and finally wrap in `GraphQLNonNull` exactly
when `required` holds (line 110). -/
def descToType : Nat → Desc → Bool → St → Except JErr Ty × St
  | 0, _, _, st => (.error .outOfFuel, st)
  | n+1, desc, isInput, st =>
    let p := computeTypeName desc isInput st
    let required := isInput && jsPresence desc "required"
    match dispatch n desc isInput p.1 p.2 with
    | (.ok t, st') => (.ok (if required then .nonNull t else t), st')
    | (.error e, st') => (.error e, st')

/-- Embedding of the kind-dispatch object `{boolean: …, …}[desc.type]()`
of src/index.js lines 52-109.  A kind outside the seven handled keys
makes the lookup yield `undefined`, whose invocation raises the generic
TypeError modelled by `JErr.notAFunction`.  (JavaScript would find
`Object.prototype` members for kinds such as `toString`; Joi kind
strings never collide with those, so that path is not modelled.) -/
def dispatch : Nat → Desc → Bool → String → St → Except JErr Ty × St
  | 0, _, _, _, st => (.error .outOfFuel, st)
  | n+1, desc, isInput, typeName, st =>
    if desc.dtype = "boolean" then (.ok .boolean, st)
    else if desc.dtype = "date" then (.ok .strT, st)
    else if desc.dtype = "string" then (.ok .strT, st)
    else if desc.dtype = "number" then
      (.ok (if desc.rules.any (fun r => r = "integer") then .intT else .floatT), st)
    else if desc.dtype = "object" then
      match lookupCache st.cache typeName with
      | some t => (.ok t, st)
      | none =>
        if isInput then
          match inputFields n desc.children st with
          | (.ok flds, st') =>
            let ty := Ty.inputObj st'.nextId typeName desc.descr flds
            (.ok ty,
             { st' with nextId := st'.nextId + 1, cache := (typeName, ty) :: st'.cache })
          | (.error e, st') => (.error e, st')
        else
          match descsToFields n desc.children st with
          | (.ok flds, st') =>
            let ty := Ty.obj st'.nextId typeName desc.descr flds
            (.ok ty,
             { st' with nextId := st'.nextId + 1, cache := (typeName, ty) :: st'.cache })
          | (.error e, st') => (.error e, st')
    else if desc.dtype = "array" then
      let items := desc.items.filter (fun i => !(jsPresence i "forbidden"))
      match items with
      | [item] =>
        match descToType n item isInput st with
        | (.ok t, st') =>
          let st'' := if (lookupCache st'.cache typeName).isNone
                      then { st' with cache := (typeName, t) :: st'.cache } else st'
          (.ok (.listT t), st'')
        | (.error e, st') => (.error e, st')
      | _ =>
        let p := compositeName isInput items st
        match makeArrayAlternativeType n isInput p.1 desc items p.2 with
        | (.ok t, st') =>
          let st'' := if (lookupCache st'.cache p.1).isNone
                      then { st' with cache := (p.1, t) :: st'.cache } else st'
          (.ok (.listT t), st'')
        | (.error e, st') => (.error e, st')
    else if desc.dtype = "alternatives" then
      let alts := desc.alts.filter (fun a => !(jsPresence a "forbidden"))
      match makeArrayAlternativeType n isInput typeName desc alts st with
      | (.ok t, st') =>
        let st'' := if (lookupCache st'.cache typeName).isNone
                    then { st' with cache := (typeName, t) :: st'.cache } else st'
        (.ok t, st'')
      | (.error e, st') => (.error e, st')
    else (.error (.notAFunction desc.dtype), st)

/-- Input-object fields of src/index.js lines 67-70:
`omitBy(mapValues(children, child => forbidden ? null : {type: descToType(child, true)}), isNull)`;
a forbidden child is dropped, every other child is translated in input
position and stored as a bare `{type}` configuration. -/
def inputFields : Nat → List (String × Desc) → St → Except JErr (List (String × Fld)) × St
  | 0, _, st => (.error .outOfFuel, st)
  | _+1, [], st => (.ok [], st)
  | n+1, (k, child) :: rest, st =>
    if jsPresence child "forbidden" then inputFields n rest st
    else
      match descToType n child true st with
      | (.ok t, st') =>
        match inputFields n rest st' with
        | (.ok flds, st'') => (.ok ((k, ⟨t, none, none⟩) :: flds), st'')
        | (.error e, st'') => (.error e, st'')
      | (.error e, st') => (.error e, st')

/-- Embedding of `descsToFields` (src/index.js lines 170-179): forbidden
descriptions are dropped; every other one yields a field configuration
with an output-position type (`descToType(desc)` is called without the
`isInput` argument), the extracted arguments, and the description text
defaulted to the empty string.  The `resolve` entry is the function
`validatedResolve desc`, modelled separately. -/
def descsToFields : Nat → List (String × Desc) → St → Except JErr (List (String × Fld)) × St
  | 0, _, st => (.error .outOfFuel, st)
  | _+1, [], st => (.ok [], st)
  | n+1, (k, desc) :: rest, st =>
    if jsPresence desc "forbidden" then descsToFields n rest st
    else
      match descToType n desc false st with
      | (.ok t, st') =>
        match descToArgs n desc st' with
        | (.ok args, st'') =>
          match descsToFields n rest st'' with
          | (.ok flds, st3) =>
            (.ok ((k, ⟨t, args, some (desc.descr.getD "")⟩) :: flds), st3)
          | (.error e, st3) => (.error e, st3)
        | (.error e, st'') => (.error e, st'')
      | (.error e, st') => (.error e, st')

/-- Embedding of `descToArgs` (src/index.js lines 145-153): the first
metadata annotation's `args` schema, if any, converted entry-wise; an
entry whose description is forbidden is dropped, every other entry is
translated in input position. -/
def descToArgs : Nat → Desc → St → Except JErr (Option (List (String × Ty))) × St
  | 0, _, st => (.error .outOfFuel, st)
  | n+1, desc, st =>
    match firstMetaArgs desc.meta with
    | none => (.ok none, st)
    | some argsSchema =>
      match argsToFields n argsSchema st with
      | (.ok l, st') => (.ok (some l), st')
      | (.error e, st') => (.error e, st')

/-- Entry-wise conversion of an arguments schema
(`omitBy(mapValues(argsSchema, …), isNull)` of src/index.js
lines 147-152). -/
def argsToFields : Nat → List (String × Desc) → St → Except JErr (List (String × Ty)) × St
  | 0, _, st => (.error .outOfFuel, st)
  | _+1, [], st => (.ok [], st)
  | n+1, (k, d) :: rest, st =>
    if jsPresence d "forbidden" then argsToFields n rest st
    else
      match descToType n d true st with
      | (.ok t, st') =>
        match argsToFields n rest st' with
        | (.ok l, st'') => (.ok ((k, t) :: l), st'')
        | (.error e, st'') => (.error e, st'')
      | (.error e, st') => (.error e, st')

/-- Embedding of `makeArrayAlternativeType` (src/index.js lines 113-141):
every candidate is translated first (side effects included), then a
cached entry under the composite name short-circuits; otherwise input
position merges all candidates' children flat (`assignAll`) and builds
one `GraphQLInputObjectType`, while output position builds a
`GraphQLUnionType` over the candidate types whose `resolveType` closure
is modelled by `unionResolveType` applied to the same `items` and
`types`. -/
def makeArrayAlternativeType :
    Nat → Bool → String → Desc → List Desc → St → Except JErr Ty × St
  | 0, _, _, _, _, st => (.error .outOfFuel, st)
  | n+1, isInput, typeName, desc, items, st =>
    match mapTypes n items isInput st with
    | (.ok types, st') =>
      match lookupCache st'.cache typeName with
      | some t => (.ok t, st')
      | none =>
        if isInput then
          match descsToFields n (assignAll (items.map Desc.children)) st' with
          | (.ok flds, st'') =>
            (.ok (.inputObj st''.nextId typeName desc.descr flds),
             { st'' with nextId := st''.nextId + 1 })
          | (.error e, st'') => (.error e, st'')
        else
          (.ok (.union st'.nextId typeName desc.descr types),
           { st' with nextId := st'.nextId + 1 })
    | (.error e, st') => (.error e, st')

/-- The candidate translations `items.map(item => descToType(item, isInput))`
of src/index.js line 114. -/
def mapTypes : Nat → List Desc → Bool → St → Except JErr (List Ty) × St
  | 0, _, _, st => (.error .outOfFuel, st)
  | _+1, [], _, st => (.ok [], st)
  | n+1, item :: rest, isInput, st =>
    match descToType n item isInput st with
    | (.ok t, st') =>
      match mapTypes n rest isInput st' with
      | (.ok ts, st'') => (.ok (t :: ts), st'')
      | (.error e, st'') => (.error e, st'')
    | (.error e, st') => (.error e, st')

end

/-- Embedding of the union `resolveType` closure of src/index.js
lines 131-138: `find(map(items, (item, i) => …))` returns the first
truthy mapped entry, where an entry is `types[i]` when either the first
metadata annotation's `isTypeOf` predicate accepts the value, or no such
predicate exists and the value's key list equals the candidate's
child-name list (`isEqual(keys(val), keys(item.children))`); every other
entry is falsy and skipped.  `makeArrayAlternativeType` installs this
closure, applied to its `items` and `types`, on the built union. -/
def unionResolveType (items : List Desc) (types : List Ty) (val : JObj) : Option Ty :=
  (items.enum.map (fun p =>
    match firstMetaIsTypeOf p.2.meta with
    | some isTypeOf => if isTypeOf val then types.get? p.1 else none
    | none =>
        if val.map Prod.fst = p.2.children.map Prod.fst then types.get? p.1
        else none)).findSome? id

/-- Matching condition of one union candidate, stated as in spec §4.2:
the candidate's `isTypeOf` metadata predicate accepts the value, or no
such predicate exists and the value's key set equals the candidate's
child-name set. -/
def itemMatches (val : JObj) (item : Desc) : Bool :=
  match firstMetaIsTypeOf item.meta with
  | some p => p val
  | none => val.map Prod.fst = item.children.map Prod.fst

/-- First candidate in list order whose condition holds, paired with its
translated type: the member-resolution behaviour the spec describes. -/
def firstMatchingMember (val : JObj) : List Desc → List Ty → Option Ty
  | item :: rest, ty :: tys =>
      if itemMatches val item then some ty else firstMatchingMember val rest tys
  | _, _ => none

/-- Runtime failure of the produced resolver: a Joi validation error
thrown at src/index.js line 161, or the generic TypeError raised when
the code invokes an absent `resolve` function. -/
inductive RErr : Type where
  | validationError : String → RErr
  | typeError : RErr
deriving Repr, DecidableEq

/-- Property read `source[fieldName]` of src/index.js line 165. -/
def jsProp : JObj → String → Option JVal
  | [], _ => none
  | (k, v) :: rest, n => if k = n then some v else jsProp rest n

/-- Embedding of `validatedResolve` (src/index.js lines 156-166).
`validate` is the external `Joi.validate` engine (an out-of-scope
collaborator, passed as an oracle): it receives the raw arguments and
the first metadata annotation's `args` schema and returns either the
validated/coerced arguments or an error.  With non-empty arguments the
oracle runs first; an error is rethrown and otherwise the metadata
`resolve` function is invoked on the validated value (invoking an
absent one raises a TypeError).  With empty (or absent) arguments the
oracle is never consulted: the raw arguments go straight to `resolve`
when present, else the field's property is read off `source`
(`source && source[opts.fieldASTs[0].name.value]`). -/
def validatedResolve (validate : JObj → Option (List (String × Desc)) → Except String JObj)
    (desc : Desc) (source : Option JObj) (args : JObj) (root : JVal)
    (fieldName : String) : Except RErr (Option JVal) :=
  let resolve := firstMetaResolve desc.meta
  if !args.isEmpty then
    match validate args (firstMetaArgs desc.meta) with
    | .error e => .error (.validationError e)
    | .ok value =>
      match resolve with
      | some f => .ok (some (f source value root fieldName))
      | none => .error .typeError
  else
    match resolve with
    | some f => .ok (some (f source args root fieldName))
    | none => .ok (source.bind (fun s => jsProp s fieldName))

/-- The assembled schema: whichever of the query and mutation roots were
supplied (src/index.js lines 182-197). -/
structure SchemaOut : Type where
  query : Option Ty
  mutation : Option Ty
deriving Repr

/-- One root object type (`RootQueryType` / `RootMutationType`) over the
described field schemas, when the corresponding key is supplied. -/
def buildRoot (n : Nat) (name : String) :
    Option (List (String × Desc)) → St → Except JErr (Option Ty) × St
  | none, st => (.ok none, st)
  | some m, st =>
    match descsToFields n m st with
    | (.ok f, st') =>
        (.ok (some (Ty.obj st'.nextId name none f)),
         { st' with nextId := st'.nextId + 1 })
    | (.error e, st') => (.error e, st')

/-- Embedding of the module entry point (src/index.js lines 182-197):
the field mappings are the `describe()` forms of the supplied Joi
schemas; the query root is built first, then the mutation root. -/
def joiql (fuel : Nat) (query mutation : Option (List (String × Desc))) (st : St) :
    Except JErr SchemaOut × St :=
  match fuel with
  | 0 => (.error .outOfFuel, st)
  | n+1 =>
    match buildRoot n "RootQueryType" query st with
    | (.ok q, st1) =>
      match buildRoot n "RootMutationType" mutation st1 with
      | (.ok m, st2) => (.ok ⟨q, m⟩, st2)
      | (.error e, st2) => (.error e, st2)
    | (.error e, st1) => (.error e, st1)

/-- Last-one-wins reading of a flat merge, as the spec words it: the
value a key receives is the one from the last source that carries it. -/
def lastWins (sources : List (List (String × Desc))) (k : String) : Option Desc :=
  sources.reverse.findSome? (fun src => lookupD src k)

/-! Helper lemmas about the translator, shared by the claim theorems. -/

/-- Name computation when the first metadata annotation carries a
non-empty name: the prefixed name, with no counter consumption. -/
lemma computeTypeName_of_named (desc : Desc) (isInput : Bool) (st : St) (nm : String)
    (hn : firstMetaName desc.meta = some nm) (hne : nm ≠ "") :
    computeTypeName desc isInput st = ((if isInput then "Input" else "") ++ nm, st) := by
  simp only [computeTypeName, hn, if_neg hne]

/-- An object-kind description whose computed name is cached translates
to the cached node itself (wrapped per the required rule), leaving the
state untouched. -/
lemma obj_cache_hit : ∀ (n : Nat) (desc : Desc) (isInput : Bool) (st : St) (nm : String) (t : Ty),
    desc.dtype = "object" →
    firstMetaName desc.meta = some nm → nm ≠ "" →
    lookupCache st.cache ((if isInput then "Input" else "") ++ nm) = some t →
    descToType (n+2) desc isInput st =
      (.ok (if isInput && jsPresence desc "required" then .nonNull t else t), st) := by
  intro n desc isInput st nm t hk hn hne hc
  simp only [descToType, computeTypeName_of_named desc isInput st nm hn hne, dispatch, hk, hc]
  simp

/-- A successful output-position translation of a named object-kind
description leaves its result in the cache under the computed name. -/
lemma obj_output_stores : ∀ (n : Nat) (desc : Desc) (st st1 : St) (nm : String) (t : Ty),
    desc.dtype = "object" →
    firstMetaName desc.meta = some nm → nm ≠ "" →
    descToType (n+2) desc false st = (.ok t, st1) →
    lookupCache st1.cache ("" ++ nm) = some t := by
  intro n desc st st1 nm t hk hn hne h
  simp only [descToType, computeTypeName_of_named desc false st nm hn hne, dispatch, hk,
    Bool.false_and, Bool.false_eq_true, if_false,
    if_neg (by decide : ¬("object" = "boolean")), if_neg (by decide : ¬("object" = "date")),
    if_neg (by decide : ¬("object" = "string")), if_neg (by decide : ¬("object" = "number")),
    if_pos rfl, if_true, eq_self_iff_true] at h
  cases hl : lookupCache st.cache ("" ++ nm) with
  | some t0 =>
      rw [hl] at h
      injection h with h1 h2
      injection h1 with h1
      subst h2; subst h1
      exact hl
  | none =>
      rw [hl] at h
      rcases hdf : descsToFields n desc.children st with ⟨r, st'⟩
      rw [hdf] at h
      cases r with
      | ok flds =>
          simp only [] at h
          injection h with h1 h2
          injection h1 with h1
          subst h2; subst h1
          simp [lookupCache]
      | error e => simp at h

/-- Behaviour of the array handler when exactly one non-forbidden item
remains: a list around the item's direct translation, with the item's
type stored under the array's own name when that name is free. -/
lemma array_single_item : ∀ (n : Nat) (desc : Desc) (isInput : Bool) (st : St) (item : Desc) (t : Ty) (st' : St),
    desc.dtype = "array" →
    desc.items.filter (fun i => !(jsPresence i "forbidden")) = [item] →
    descToType n item isInput (computeTypeName desc isInput st).2 = (.ok t, st') →
    descToType (n+2) desc isInput st =
      (.ok (if isInput && jsPresence desc "required" then .nonNull (.listT t) else .listT t),
       if (lookupCache st'.cache (computeTypeName desc isInput st).1).isNone
       then { st' with cache := ((computeTypeName desc isInput st).1, t) :: st'.cache } else st') := by
  intro n desc isInput st item t st' hk hfilter hitem
  simp only [descToType, dispatch, hk,
    if_neg (by decide : ¬("array" = "boolean")), if_neg (by decide : ¬("array" = "date")),
    if_neg (by decide : ¬("array" = "string")), if_neg (by decide : ¬("array" = "number")),
    if_neg (by decide : ¬("array" = "object")), if_pos rfl, if_true, eq_self_iff_true,
    hfilter, hitem]

/-- The composite synthesizer returns a cached entry unchanged (after
translating every candidate). -/
lemma makeAAT_hit : ∀ (n : Nat) (isInput : Bool) (typeName : String) (desc : Desc)
    (items : List Desc) (st st1 : St) (types : List Ty) (t : Ty),
    mapTypes n items isInput st = (.ok types, st1) →
    lookupCache st1.cache typeName = some t →
    makeArrayAlternativeType (n+1) isInput typeName desc items st = (.ok t, st1) := by
  intro n isInput typeName desc items st st1 types t hm hc
  simp only [makeArrayAlternativeType, hm, hc]

/-- The composite synthesizer in output position on a cache miss builds
a union over the candidate types. -/
lemma makeAAT_output : ∀ (n : Nat) (typeName : String) (desc : Desc)
    (items : List Desc) (st st1 : St) (types : List Ty),
    mapTypes n items false st = (.ok types, st1) →
    lookupCache st1.cache typeName = none →
    makeArrayAlternativeType (n+1) false typeName desc items st =
      (.ok (.union st1.nextId typeName desc.descr types),
       { st1 with nextId := st1.nextId + 1 }) := by
  intro n typeName desc items st st1 types hm hc
  simp only [makeArrayAlternativeType, hm, hc, Bool.false_eq_true, if_false]

/-- The composite synthesizer in input position on a cache miss builds a
single input object over the flat merge of all candidates' children. -/
lemma makeAAT_input : ∀ (n : Nat) (typeName : String) (desc : Desc)
    (items : List Desc) (st st1 st2 : St) (types : List Ty) (flds : List (String × Fld)),
    mapTypes n items true st = (.ok types, st1) →
    lookupCache st1.cache typeName = none →
    descsToFields n (assignAll (items.map Desc.children)) st1 = (.ok flds, st2) →
    makeArrayAlternativeType (n+1) true typeName desc items st =
      (.ok (.inputObj st2.nextId typeName desc.descr flds),
       { st2 with nextId := st2.nextId + 1 }) := by
  intro n typeName desc items st st1 st2 types flds hm hc hdf
  simp only [makeArrayAlternativeType, hm, hc, hdf, if_true]

/-- The alternatives handler delegates to the composite synthesizer
under the node's own computed name and stores the result if absent. -/
lemma alternatives_build : ∀ (n : Nat) (desc : Desc) (isInput : Bool) (st st1 : St) (t : Ty),
    desc.dtype = "alternatives" →
    makeArrayAlternativeType n isInput (computeTypeName desc isInput st).1 desc
      (desc.alts.filter (fun a => !(jsPresence a "forbidden")))
      (computeTypeName desc isInput st).2 = (.ok t, st1) →
    descToType (n+2) desc isInput st =
      (.ok (if isInput && jsPresence desc "required" then .nonNull t else t),
       if (lookupCache st1.cache (computeTypeName desc isInput st).1).isNone
       then { st1 with cache := ((computeTypeName desc isInput st).1, t) :: st1.cache }
       else st1) := by
  intro n desc isInput st st1 t hk hm
  simp only [descToType, dispatch, hk,
    if_neg (by decide : ¬("alternatives" = "boolean")),
    if_neg (by decide : ¬("alternatives" = "date")),
    if_neg (by decide : ¬("alternatives" = "string")),
    if_neg (by decide : ¬("alternatives" = "number")),
    if_neg (by decide : ¬("alternatives" = "object")),
    if_neg (by decide : ¬("alternatives" = "array")),
    if_pos rfl, if_true, eq_self_iff_true, hm]

/-- The array handler with at least two non-forbidden items delegates to
the composite synthesizer under the composite name and wraps in a list. -/
lemma array_multi : ∀ (n : Nat) (desc : Desc) (isInput : Bool) (st st1 : St)
    (a b : Desc) (rest : List Desc) (t : Ty),
    desc.dtype = "array" →
    desc.items.filter (fun i => !(jsPresence i "forbidden")) = a :: b :: rest →
    makeArrayAlternativeType n isInput
      (compositeName isInput (a :: b :: rest) (computeTypeName desc isInput st).2).1 desc
      (a :: b :: rest)
      (compositeName isInput (a :: b :: rest) (computeTypeName desc isInput st).2).2 = (.ok t, st1) →
    descToType (n+2) desc isInput st =
      (.ok (if isInput && jsPresence desc "required" then .nonNull (.listT t) else .listT t),
       if (lookupCache st1.cache
             (compositeName isInput (a :: b :: rest) (computeTypeName desc isInput st).2).1).isNone
       then { st1 with cache :=
               ((compositeName isInput (a :: b :: rest) (computeTypeName desc isInput st).2).1, t)
               :: st1.cache }
       else st1) := by
  intro n desc isInput st st1 a b rest t hk hfilter hm
  simp only [descToType, dispatch, hk,
    if_neg (by decide : ¬("array" = "boolean")), if_neg (by decide : ¬("array" = "date")),
    if_neg (by decide : ¬("array" = "string")), if_neg (by decide : ¬("array" = "number")),
    if_neg (by decide : ¬("array" = "object")), if_pos rfl, if_true, eq_self_iff_true,
    hfilter, hm]

/-- A successful candidate translation yields one type per candidate. -/
lemma mapTypes_length : ∀ (items : List Desc) (n : Nat) (isInput : Bool) (st st' : St) (types : List Ty),
    mapTypes n items isInput st = (.ok types, st') → types.length = items.length := by
  intro items
  induction items with
  | nil =>
      intro n isInput st st' types h
      cases n with
      | zero => simp [mapTypes] at h
      | succ n =>
          simp only [mapTypes] at h
          injection h with h1 h2
          injection h1 with h1
          subst h1
          rfl
  | cons a rest ih =>
      intro n isInput st st' types h
      cases n with
      | zero => simp [mapTypes] at h
      | succ n =>
          simp only [mapTypes] at h
          rcases h1 : descToType n a isInput st with ⟨r, stx⟩
          rw [h1] at h
          cases r with
          | error e => simp at h
          | ok t =>
              simp only [] at h
              rcases h2 : mapTypes n rest isInput stx with ⟨r2, sty⟩
              rw [h2] at h
              cases r2 with
              | error e => simp at h
              | ok ts =>
                  simp only [] at h
                  injection h with ha hb
                  injection ha with ha
                  subst ha
                  simp [ih n isInput stx sty ts h2]

/-- Key characterization of the input-object field builder: exactly the
non-forbidden children survive, in order. -/
lemma inputFields_keys : ∀ (children : List (String × Desc)) (n : Nat) (st st' : St)
    (flds : List (String × Fld)),
    inputFields n children st = (.ok flds, st') →
    flds.map Prod.fst = (children.filter (fun p => !(jsPresence p.2 "forbidden"))).map Prod.fst := by
  intro children
  induction children with
  | nil =>
      intro n st st' flds h
      cases n with
      | zero => simp [inputFields] at h
      | succ n =>
          simp only [inputFields] at h
          injection h with h1 h2
          injection h1 with h1
          subst h1
          rfl
  | cons p rest ih =>
      intro n st st' flds h
      rcases p with ⟨k, child⟩
      cases n with
      | zero => simp [inputFields] at h
      | succ n =>
          simp only [inputFields] at h
          by_cases hf : jsPresence child "forbidden" = true
          · rw [if_pos hf] at h
            simp [List.filter_cons, hf, ih n st st' flds h]
          · rw [if_neg hf] at h
            rcases h1 : descToType n child true st with ⟨r, stx⟩
            rw [h1] at h
            cases r with
            | error e => simp at h
            | ok t =>
                simp only [] at h
                rcases h2 : inputFields n rest stx with ⟨r2, sty⟩
                rw [h2] at h
                cases r2 with
                | error e => simp at h
                | ok fs =>
                    simp only [] at h
                    injection h with ha hb
                    injection ha with ha
                    subst ha
                    simp [List.filter_cons, Bool.not_eq_true] at hf ⊢
                    simp [hf, ih n stx sty fs h2]

/-- Key characterization of the field synthesizer: exactly the
non-forbidden descriptions survive, in order. -/
lemma descsToFields_keys : ∀ (descs : List (String × Desc)) (n : Nat) (st st' : St)
    (flds : List (String × Fld)),
    descsToFields n descs st = (.ok flds, st') →
    flds.map Prod.fst = (descs.filter (fun p => !(jsPresence p.2 "forbidden"))).map Prod.fst := by
  intro descs
  induction descs with
  | nil =>
      intro n st st' flds h
      cases n with
      | zero => simp [descsToFields] at h
      | succ n =>
          simp only [descsToFields] at h
          injection h with h1 h2
          injection h1 with h1
          subst h1
          rfl
  | cons p rest ih =>
      intro n st st' flds h
      rcases p with ⟨k, desc⟩
      cases n with
      | zero => simp [descsToFields] at h
      | succ n =>
          simp only [descsToFields] at h
          by_cases hf : jsPresence desc "forbidden" = true
          · rw [if_pos hf] at h
            simp [List.filter_cons, hf, ih n st st' flds h]
          · rw [if_neg hf] at h
            rcases h1 : descToType n desc false st with ⟨r, stx⟩
            rw [h1] at h
            cases r with
            | error e => simp at h
            | ok t =>
                simp only [] at h
                rcases h2 : descToArgs n desc stx with ⟨r2, sty⟩
                rw [h2] at h
                cases r2 with
                | error e => simp at h
                | ok args =>
                    simp only [] at h
                    rcases h3 : descsToFields n rest sty with ⟨r3, stz⟩
                    rw [h3] at h
                    cases r3 with
                    | error e => simp at h
                    | ok fs =>
                        simp only [] at h
                        injection h with ha hb
                        injection ha with ha
                        subst ha
                        simp [List.filter_cons, Bool.not_eq_true] at hf ⊢
                        simp [hf, ih n sty stz fs h3]

/-- Key characterization of the argument extractor: exactly the
non-forbidden argument entries survive, in order. -/
lemma argsToFields_keys : ∀ (args : List (String × Desc)) (n : Nat) (st st' : St)
    (l : List (String × Ty)),
    argsToFields n args st = (.ok l, st') →
    l.map Prod.fst = (args.filter (fun p => !(jsPresence p.2 "forbidden"))).map Prod.fst := by
  intro args
  induction args with
  | nil =>
      intro n st st' l h
      cases n with
      | zero => simp [argsToFields] at h
      | succ n =>
          simp only [argsToFields] at h
          injection h with h1 h2
          injection h1 with h1
          subst h1
          rfl
  | cons p rest ih =>
      intro n st st' l h
      rcases p with ⟨k, d⟩
      cases n with
      | zero => simp [argsToFields] at h
      | succ n =>
          simp only [argsToFields] at h
          by_cases hf : jsPresence d "forbidden" = true
          · rw [if_pos hf] at h
            simp [List.filter_cons, hf, ih n st st' l h]
          · rw [if_neg hf] at h
            rcases h1 : descToType n d true st with ⟨r, stx⟩
            rw [h1] at h
            cases r with
            | error e => simp at h
            | ok t =>
                simp only [] at h
                rcases h2 : argsToFields n rest stx with ⟨r2, sty⟩
                rw [h2] at h
                cases r2 with
                | error e => simp at h
                | ok fs =>
                    simp only [] at h
                    injection h with ha hb
                    injection ha with ha
                    subst ha
                    simp [List.filter_cons, Bool.not_eq_true] at hf ⊢
                    simp [hf, ih n stx sty fs h2]

/-- Member resolution over an empty candidate list finds nothing. -/
lemma firstMatchingMember_nil (val : JObj) (tys : List Ty) :
    firstMatchingMember val [] tys = none := by
  cases tys <;> rfl

/-- Member resolution steps through one candidate at a time. -/
lemma firstMatchingMember_cons (val : JObj) (it : Desc) (rest : List Desc)
    (ty : Ty) (tys : List Ty) :
    firstMatchingMember val (it :: rest) (ty :: tys) =
      if itemMatches val it then some ty else firstMatchingMember val rest tys := rfl

/-- Generalized correspondence between the `find(map(…))` closure body
and first-match member resolution, indexed from an arbitrary offset. -/
lemma unionResolve_aux : ∀ (items : List Desc) (k : Nat) (full : List Ty) (val : JObj),
    full.length = k + items.length →
    ((List.enumFrom k items).map (fun p =>
      match firstMetaIsTypeOf p.2.meta with
      | some isTypeOf => if isTypeOf val then full.get? p.1 else none
      | none =>
          if val.map Prod.fst = p.2.children.map Prod.fst then full.get? p.1
          else none)).findSome? id
    = firstMatchingMember val items (full.drop k) := by
  intro items
  induction items with
  | nil =>
      intro k full val h
      simp only [List.enumFrom, List.map_nil, List.findSome?_nil, firstMatchingMember_nil]
  | cons it rest ih =>
      intro k full val h
      rw [List.length_cons] at h
      have hk : k < full.length := by omega
      rw [List.enumFrom_cons]
      simp only [List.map_cons, List.findSome?_cons, id]
      have hdrop : full.drop k = full[k] :: full.drop (k+1) := List.drop_eq_getElem_cons hk
      have hget : full.get? k = some full[k] := by
        rw [List.get?_eq_getElem?]
        exact List.getElem?_eq_getElem hk
      have hrec := ih (k+1) full val (by omega)
      rw [hdrop, firstMatchingMember_cons]
      by_cases hm : itemMatches val it = true
      · rw [if_pos hm]
        cases hmeta : firstMetaIsTypeOf it.meta with
        | some f =>
            simp only [itemMatches, hmeta] at hm
            simp only [hmeta, hm, if_true, hget]
        | none =>
            simp only [itemMatches, hmeta, decide_eq_true_eq] at hm
            simp only [hmeta, if_pos hm, hget]
      · rw [if_neg hm]
        cases hmeta : firstMetaIsTypeOf it.meta with
        | some f =>
            simp only [itemMatches, hmeta] at hm
            simp only [Bool.not_eq_true] at hm
            simp only [hmeta, hm, Bool.false_eq_true, if_false]
            exact hrec
        | none =>
            simp only [itemMatches, hmeta, decide_eq_true_eq] at hm
            simp only [hmeta, if_neg hm]
            exact hrec

/-- Composite-name components when every item's capitalized kind is
non-empty: one component per item, no counter consumption. -/
lemma compositeNameParts_of_kinds : ∀ (items : List Desc) (isInput : Bool) (st : St),
    (∀ d ∈ items, capitalize d.dtype ≠ "") →
    compositeNameParts isInput items st =
      (items.map (fun d => (if isInput then "Input" else "") ++ capitalize d.dtype), st) := by
  intro items
  induction items with
  | nil => intro isInput st h; rfl
  | cons d rest ih =>
      intro isInput st h
      have hd : capitalize d.dtype ≠ "" := h d (List.mem_cons_self d rest)
      simp only [compositeNameParts, compositeItemName, if_neg hd,
        ih isInput st (fun x hx => h x (List.mem_cons_of_mem d hx)), List.map_cons]

/-- The composite name is the `Or`-join of the capitalized item kinds
(optionally `Input`-prefixed); item name metadata plays no part. -/
lemma compositeName_of_kinds : ∀ (isInput : Bool) (items : List Desc) (st : St),
    (∀ d ∈ items, capitalize d.dtype ≠ "") →
    compositeName isInput items st =
      (String.intercalate "Or"
        (items.map (fun d => (if isInput then "Input" else "") ++ capitalize d.dtype)), st) := by
  intro isInput items st h
  simp only [compositeName, compositeNameParts_of_kinds items isInput st h]

/-- Lookup distributes over list append. -/
lemma lookupD_append : ∀ (l r : List (String × Desc)) (k : String),
    lookupD (l ++ r) k = (lookupD l k).or (lookupD r k) := by
  intro l
  induction l with
  | nil => intro r k; rfl
  | cons p rest ih =>
      intro r k
      rcases p with ⟨a, b⟩
      by_cases h : a = k
      · simp [lookupD, h]
      · simp [lookupD, h, ih]

/-- Lookup of an absent key. -/
lemma lookupD_eq_none_of_not_mem : ∀ (acc : List (String × Desc)) (k : String),
    k ∉ acc.map Prod.fst → lookupD acc k = none := by
  intro acc
  induction acc with
  | nil => intro k _; rfl
  | cons p rest ih =>
      intro k hk
      rcases p with ⟨a, b⟩
      simp only [List.map_cons, List.mem_cons, not_or] at hk
      have hak : ¬ a = k := fun h => hk.1 h.symm
      simp [lookupD, hak, ih k hk.2]

/-- A key matched by `any` is present. -/
lemma lookup_some_of_any : ∀ (acc : List (String × Desc)) (k1 : String),
    acc.any (fun p => p.1 = k1) = true → ∃ v, lookupD acc k1 = some v := by
  intro acc
  induction acc with
  | nil => intro k1 h; simp at h
  | cons p rest ih =>
      intro k1 h
      rcases p with ⟨a, b⟩
      by_cases ha : a = k1
      · exact ⟨b, by simp [lookupD, ha]⟩
      · simp only [List.any_cons, decide_eq_true_eq, Bool.or_eq_true] at h
        rcases h with h | h
        · exact absurd h ha
        · obtain ⟨v, hv⟩ := ih k1 h
          exact ⟨v, by simp [lookupD, ha, hv]⟩

/-- A key missed by `any` is absent. -/
lemma lookup_none_of_not_any : ∀ (acc : List (String × Desc)) (k1 : String),
    acc.any (fun p => p.1 = k1) = false → lookupD acc k1 = none := by
  intro acc
  induction acc with
  | nil => intro k1 _; rfl
  | cons p rest ih =>
      intro k1 h
      rcases p with ⟨a, b⟩
      simp only [List.any_cons, Bool.or_eq_false_iff, decide_eq_false_iff_not] at h
      simp [lookupD, h.1, ih k1 h.2]

/-- Lookup after in-place replacement of one key's value. -/
lemma lookupD_mapReplace : ∀ (acc : List (String × Desc)) (k1 : String) (v : Desc) (k : String),
    lookupD (acc.map (fun p => if p.1 = k1 then (p.1, v) else p)) k =
      if k = k1 then (lookupD acc k).map (fun _ => v) else lookupD acc k := by
  intro acc k1 v
  induction acc with
  | nil => intro k; simp [lookupD]
  | cons p rest ih =>
      intro k
      rcases p with ⟨a, b⟩
      simp only [List.map_cons]
      by_cases h1 : a = k1
      · rw [if_pos h1]
        simp only [lookupD, ih k]
        by_cases h2 : a = k
        · rw [if_pos h2, if_pos h2]
          have h3 : k = k1 := h2.symm.trans h1
          rw [if_pos h3]
          simp
        · rw [if_neg h2, if_neg h2]
      · rw [if_neg h1]
        simp only [lookupD, ih k]
        by_cases h2 : a = k
        · rw [if_pos h2, if_pos h2]
          have h3 : ¬ k = k1 := fun hh => h1 (h2.trans hh)
          rw [if_neg h3]
        · rw [if_neg h2, if_neg h2]

/-- `Object.assign` of one key-value pair: that key now maps to the new
value, every other key is untouched. -/
lemma lookupD_assignPair : ∀ (acc : List (String × Desc)) (k1 : String) (v : Desc) (k : String),
    lookupD (assignPair acc (k1, v)) k = if k = k1 then some v else lookupD acc k := by
  intro acc k1 v k
  simp only [assignPair]
  by_cases hany : acc.any (fun p => p.1 = (k1, v).1) = true
  · rw [if_pos hany]
    rw [lookupD_mapReplace]
    by_cases h3 : k = k1
    · rw [if_pos h3, if_pos h3]
      obtain ⟨v0, hv0⟩ := lookup_some_of_any acc k1 (by simpa using hany)
      rw [h3, hv0]
      rfl
    · rw [if_neg h3, if_neg h3]
  · rw [if_neg hany]
    rw [lookupD_append]
    by_cases h3 : k = k1
    · subst h3
      rw [lookup_none_of_not_any acc k (by simpa using Bool.of_not_eq_true hany)]
      simp [lookupD]
    · by_cases h4 : k1 = k
      · exact absurd h4.symm h3
      · rw [if_neg h3]
        cases hl : lookupD acc k with
        | some w => rfl
        | none => simp [lookupD, h4]

/-- Folding one source into an accumulator: a key receives its last
occurrence in the source, else the accumulator's value. -/
lemma lookupD_foldl_assignPair : ∀ (src : List (String × Desc)) (acc : List (String × Desc)) (k : String),
    lookupD (src.foldl assignPair acc) k =
      (lookupD src.reverse k).or (lookupD acc k) := by
  intro src
  induction src with
  | nil => intro acc k; simp [lookupD]
  | cons p rest ih =>
      intro acc k
      rcases p with ⟨a, b⟩
      rw [List.foldl_cons, ih, List.reverse_cons, lookupD_append, lookupD_assignPair]
      cases hl : lookupD rest.reverse k with
      | some w => rfl
      | none =>
          simp only [Option.none_or]
          by_cases h2 : k = a
          · subst h2
            simp [lookupD]
          · have h4 : ¬ a = k := fun hh => h2 hh.symm
            simp [lookupD, h2, h4]

/-- Folding a list of sources: a key receives its value from the last
source carrying it, else the accumulator's value. -/
lemma lookupD_foldl_sources : ∀ (sources : List (List (String × Desc)))
    (acc : List (String × Desc)) (k : String),
    lookupD (sources.foldl (fun a s => s.foldl assignPair a) acc) k =
      (sources.reverse.findSome? (fun src => lookupD src.reverse k)).or (lookupD acc k) := by
  intro sources
  induction sources with
  | nil => intro acc k; simp [lookupD]
  | cons src rest ih =>
      intro acc k
      rw [List.foldl_cons, ih, List.reverse_cons, List.findSome?_append,
        lookupD_foldl_assignPair]
      cases h1 : List.findSome? (fun src => lookupD src.reverse k) rest.reverse with
      | some w => rfl
      | none =>
          simp only [Option.none_or, List.findSome?_cons, List.findSome?_nil]
          cases h2 : lookupD src.reverse k <;> simp [h2]

/-- With unique keys, a source reads the same forwards and backwards. -/
lemma lookupD_reverse_of_nodup : ∀ (src : List (String × Desc)),
    (src.map Prod.fst).Nodup → ∀ k, lookupD src.reverse k = lookupD src k := by
  intro src
  induction src with
  | nil => intro _ k; rfl
  | cons p rest ih =>
      intro hnd k
      rcases p with ⟨a, b⟩
      simp only [List.map_cons, List.nodup_cons] at hnd
      rw [List.reverse_cons, lookupD_append, ih hnd.2 k]
      by_cases h2 : a = k
      · subst h2
        rw [lookupD_eq_none_of_not_mem rest a hnd.1]
        simp [lookupD]
      · cases hl : lookupD rest k with
        | some w => simp [lookupD, h2, hl]
        | none => simp [lookupD, h2, hl]

/-- The flat merge reads as last-source-wins when each source has
unique keys (as JavaScript object sources do). -/
lemma lookupD_assignAll : ∀ (sources : List (List (String × Desc))) (k : String),
    (∀ src ∈ sources, (src.map Prod.fst).Nodup) →
    lookupD (assignAll sources) k = lastWins sources k := by
  intro sources k hnd
  have hcong : ∀ (l : List (List (String × Desc))),
      (∀ src ∈ l, (src.map Prod.fst).Nodup) →
      List.findSome? (fun src => lookupD src.reverse k) l =
        List.findSome? (fun src => lookupD src k) l := by
    intro l
    induction l with
    | nil => intro _; rfl
    | cons s rest ih =>
        intro h
        rw [List.findSome?_cons, List.findSome?_cons,
          lookupD_reverse_of_nodup s (h s (List.mem_cons_self s rest)) k,
          ih (fun x hx => h x (List.mem_cons_of_mem s hx))]
  rw [assignAll, lookupD_foldl_sources, lastWins,
    hcong sources.reverse (fun x hx => hnd x (List.mem_reverse.mp hx))]
  simp [lookupD]

/-- Dispatch on a kind outside the seven handled ones: the generic
TypeError of invoking the undefined table entry, after the name
computation already ran. -/
lemma unknownKind_dispatch_error : ∀ (n : Nat) (desc : Desc) (isInput : Bool) (st : St),
    desc.dtype ∉ (["boolean", "date", "string", "number", "object", "array", "alternatives"] : List String) →
    descToType (n+2) desc isInput st =
      (.error (.notAFunction desc.dtype), (computeTypeName desc isInput st).2) := by
  intro n desc isInput st h
  simp only [List.mem_cons, List.mem_singleton, not_or] at h
  obtain ⟨h1, h2, h3, h4, h5, h6, h7⟩ := h
  simp only [descToType, dispatch, h1, h2, h3, h4, h5, h6, h7, if_false]

/-- Output-position alternatives on a cache miss: a union over the
translations of the non-forbidden branches, named by the node's own
computed name, stored in the cache. -/
lemma alternatives_output_union : ∀ (n : Nat) (desc : Desc) (st st1 : St) (tys : List Ty),
    desc.dtype = "alternatives" →
    mapTypes n (desc.alts.filter (fun a => !(jsPresence a "forbidden"))) false
      (computeTypeName desc false st).2 = (.ok tys, st1) →
    lookupCache st1.cache (computeTypeName desc false st).1 = none →
    descToType (n+3) desc false st =
      (.ok (.union st1.nextId (computeTypeName desc false st).1 desc.descr tys),
       { st1 with nextId := st1.nextId + 1,
                  cache := ((computeTypeName desc false st).1,
                            Ty.union st1.nextId (computeTypeName desc false st).1 desc.descr tys)
                           :: st1.cache }) := by
  intro n desc st st1 tys hk hm hc
  have h1 := makeAAT_output n (computeTypeName desc false st).1 desc
    (desc.alts.filter (fun a => !(jsPresence a "forbidden")))
    (computeTypeName desc false st).2 st1 tys hm hc
  have h2 := alternatives_build (n+1) desc false st _ _ hk h1
  simpa [hc] using h2

/-- Output-position multi-item array on a cache miss: a list around a
union over the translations of the non-forbidden items, named by the
composite name, stored in the cache. -/
lemma array_multi_output_union : ∀ (n : Nat) (desc : Desc) (st st1 : St)
    (a b : Desc) (rest : List Desc) (tys : List Ty),
    desc.dtype = "array" →
    desc.items.filter (fun i => !(jsPresence i "forbidden")) = a :: b :: rest →
    mapTypes n (a :: b :: rest) false
      (compositeName false (a :: b :: rest) (computeTypeName desc false st).2).2 = (.ok tys, st1) →
    lookupCache st1.cache
      (compositeName false (a :: b :: rest) (computeTypeName desc false st).2).1 = none →
    descToType (n+3) desc false st =
      (.ok (.listT (.union st1.nextId
         (compositeName false (a :: b :: rest) (computeTypeName desc false st).2).1
         desc.descr tys)),
       { st1 with nextId := st1.nextId + 1,
                  cache := ((compositeName false (a :: b :: rest) (computeTypeName desc false st).2).1,
                            Ty.union st1.nextId
                              (compositeName false (a :: b :: rest) (computeTypeName desc false st).2).1
                              desc.descr tys) :: st1.cache }) := by
  intro n desc st st1 a b rest tys hk hfil hm hc
  have h1 := makeAAT_output n
    (compositeName false (a :: b :: rest) (computeTypeName desc false st).2).1 desc
    (a :: b :: rest)
    (compositeName false (a :: b :: rest) (computeTypeName desc false st).2).2 st1 tys hm hc
  have h2 := array_multi (n+1) desc false st _ a b rest _ hk hfil h1
  simpa [hc] using h2

/-- Two object-kind descriptions carrying the same name annotation,
translated one after the other in output position, yield the identical
node: the second translation returns the cached instance of the first. -/
lemma two_named_objects : ∀ (n m : Nat) (d1 d2 : Desc) (st st1 : St) (nm : String) (t : Ty),
    d1.dtype = "object" → d2.dtype = "object" →
    firstMetaName d1.meta = some nm → firstMetaName d2.meta = some nm → nm ≠ "" →
    descToType (n+2) d1 false st = (.ok t, st1) →
    descToType (m+2) d2 false st1 = (.ok t, st1) := by
  intro n m d1 d2 st st1 nm t hk1 hk2 hn1 hn2 hne h1
  have hstore := obj_output_stores n d1 st st1 nm t hk1 hn1 hne h1
  have h2 := obj_cache_hit m d2 false st1 nm t hk2 hn2 hne hstore
  simpa using h2

/-! Concrete description fixtures for witnesses and counterexamples. -/

/-- Plain string description, no annotations. -/
def dString : Desc := .mk "string" none [] [] [] [] [] none

/-- Plain number description, no annotations, no integer rule. -/
def dNumber : Desc := .mk "number" none [] [] [] [] [] none

/-- String description with forbidden presence. -/
def dForb : Desc := .mk "string" (some "forbidden") [] [] [] [] [] none

/-- Metadata annotation carrying only a name. -/
def metaNamed (s : String) : MetaE := .mk (some s) none none none

/-- Object named `Foo` with one string child `a`. -/
def dObjFoo : Desc := .mk "object" none [] [("a", dString)] [] [] [metaNamed "Foo"] none

/-- A structurally different object also named `Foo` (number child `b`). -/
def dObjFoo2 : Desc := .mk "object" none [] [("b", dNumber)] [] [] [metaNamed "Foo"] none

/-- String description annotated with the name `Foo`. -/
def dStrFoo : Desc := .mk "string" none [] [] [] [] [metaNamed "Foo"] none

/-- The node `dObjFoo` builds from the empty state. -/
def tyFooObj : Ty := .obj 0 "Foo" none [("a", ⟨.strT, none, some ""⟩)]

/-- State after translating `dObjFoo` from the empty state. -/
def stAfterFoo : St := ⟨[("Foo", tyFooObj)], 1, 1⟩

/-- Array with two items: a string named `Foo` and a number. -/
def dArrTwo : Desc := .mk "array" none [] [] [dStrFoo, dNumber] [] [] none

/-- Alternatives named `Bar` over a string and a number. -/
def dAltBar : Desc := .mk "alternatives" none [] [] [] [dString, dNumber] [metaNamed "Bar"] none

/-- Alternatives named `Alt` with a forbidden middle branch. -/
def dAltForb : Desc :=
  .mk "alternatives" none [] [] [] [dString, dForb, dNumber] [metaNamed "Alt"] none

/-- Description of an unrecognized kind. -/
def dBad : Desc := .mk "binary" none [] [] [] [] [] none

/-- Array named `Arr` with a single string item. -/
def dArrOne : Desc := .mk "array" none [] [] [dString] [] [metaNamed "Arr"] none

/-- Object-kind description named `Arr` (same name as `dArrOne`). -/
def dObjArr : Desc := .mk "object" none [] [] [] [] [metaNamed "Arr"] none

/-- Required string description. -/
def dReqStr : Desc := .mk "string" (some "required") [] [] [] [] [] none

/-- Object named `A` with children `x : string`, `y : string`. -/
def dObjA : Desc := .mk "object" none [] [("x", dString), ("y", dString)] [] [] [metaNamed "A"] none

/-- Object named `B` with children `x : number`, `z : string`. -/
def dObjB : Desc := .mk "object" none [] [("x", dNumber), ("z", dString)] [] [] [metaNamed "B"] none

/-- Alternatives node owning the candidates `dObjA`, `dObjB`. -/
def dAltAB : Desc := .mk "alternatives" none [] [] [] [dObjA, dObjB] [] none

/-- A user resolver: joins the argument names it was called with. -/
def fResolve : ResolveFn := fun _ args _ _ => String.intercalate "," (args.map Prod.fst)

/-- Description carrying a `resolve` metadata annotation. -/
def dWithResolve : Desc := .mk "string" none [] [] [] [] [.mk none none (some fResolve) none] none

/-- Validation oracle that always coerces (prepends a marker argument). -/
def okOracle : JObj → Option (List (String × Desc)) → Except String JObj :=
  fun args _ => .ok (("coerced", "1") :: args)

/-- Validation oracle that always fails. -/
def errOracle : JObj → Option (List (String × Desc)) → Except String JObj :=
  fun _ _ => .error "invalid"

/-- Union candidate whose first metadata annotation carries an
always-true `isTypeOf` predicate. -/
def cIsTypeOf : Desc :=
  .mk "object" none [] [("p", dString)] [] [] [.mk none none none (some (fun _ => true))] none

/-- Union candidate with child-name set `{k}` and no predicate. -/
def cStruct : Desc := .mk "object" none [] [("k", dString)] [] [] [] none

/-- Runtime value whose key set structurally matches `cStruct`. -/
def vKmatch : JObj := [("k", "1")]

/-! Claim theorems. -/

/-- C1 (amended): within one build the translations that consult the
type cache return the identical node instance currently stored under
the computed name: (1) an object-kind description whose computed name
is in the cache translates to that cached node itself (wrapped per the
required rule), state untouched, without re-deriving or checking
consistency against the new description; (2) the array/alternatives
composite synthesizer, after translating its candidates, returns the
identical cached node under its name; (3) consequently two object
descriptions sharing one explicit name annotation, translated one
after the other in output position, yield the same node instance.  The
claim's universal form over every description kind fails — scalar and
single-item-array translations compute the name but never consult the
cache (`C1_counterexample`). -/
theorem C1_cached_name_identity :
    (∀ (n : Nat) (desc : Desc) (isInput : Bool) (st : St) (nm : String) (t : Ty),
       desc.dtype = "object" →
       firstMetaName desc.meta = some nm → nm ≠ "" →
       lookupCache st.cache ((if isInput then "Input" else "") ++ nm) = some t →
       descToType (n+2) desc isInput st =
         (.ok (if isInput && jsPresence desc "required" then .nonNull t else t), st))
  ∧ (∀ (n : Nat) (isInput : Bool) (typeName : String) (desc : Desc)
       (items : List Desc) (st st1 : St) (types : List Ty) (t : Ty),
       mapTypes n items isInput st = (.ok types, st1) →
       lookupCache st1.cache typeName = some t →
       makeArrayAlternativeType (n+1) isInput typeName desc items st = (.ok t, st1))
  ∧ (∀ (n m : Nat) (d1 d2 : Desc) (st st1 : St) (nm : String) (t : Ty),
       d1.dtype = "object" → d2.dtype = "object" →
       firstMetaName d1.meta = some nm → firstMetaName d2.meta = some nm → nm ≠ "" →
       descToType (n+2) d1 false st = (.ok t, st1) →
       descToType (m+2) d2 false st1 = (.ok t, st1)) :=
  ⟨obj_cache_hit, makeAAT_hit, two_named_objects⟩

/-- C1 counterexample: after the object named `Foo` is cached, the
string description that also computes the type name `Foo` is translated
to the string scalar, not to the cached node — refuting "every later
translation of a description node that computes that same name returns
the identical cached node instance". -/
theorem C1_counterexample :
    descToType 9 dObjFoo false St.init = (.ok tyFooObj, stAfterFoo)
  ∧ lookupCache stAfterFoo.cache "Foo" = some tyFooObj
  ∧ (computeTypeName dStrFoo false stAfterFoo).1 = "Foo"
  ∧ descToType 9 dStrFoo false stAfterFoo = (.ok .strT, stAfterFoo)
  ∧ (Except.ok Ty.strT : Except JErr Ty) ≠ .ok tyFooObj :=
  ⟨rfl, rfl, rfl, rfl, fun h => Ty.noConfusion (Except.ok.inj h)⟩

/-- C1 witness: the structurally different object `dObjFoo2`, sharing
the name `Foo`, translated right after `dObjFoo`, yields the very node
built for `dObjFoo`. -/
theorem C1_witness :
    descToType 9 dObjFoo2 false stAfterFoo = (.ok tyFooObj, stAfterFoo) :=
  C1_cached_name_identity.2.2 7 7 dObjFoo dObjFoo2 St.init stAfterFoo "Foo" tyFooObj
    rfl rfl rfl rfl (by decide) rfl

/-- C2: given a successful dispatch result, the translator wraps it in
`NonNullWrapper` exactly when the description is required AND translated
in input position: (1) required in input position wraps; (2) output
position never wraps, required or not; (3) a non-required description is
never wrapped in either position. -/
theorem C2_required_nonnull_iff_input :
    (∀ (n : Nat) (desc : Desc) (st : St) (t : Ty) (st' : St),
       jsPresence desc "required" = true →
       dispatch n desc true (computeTypeName desc true st).1 (computeTypeName desc true st).2 =
         (.ok t, st') →
       descToType (n+1) desc true st = (.ok (.nonNull t), st'))
  ∧ (∀ (n : Nat) (desc : Desc) (st : St) (t : Ty) (st' : St),
       dispatch n desc false (computeTypeName desc false st).1 (computeTypeName desc false st).2 =
         (.ok t, st') →
       descToType (n+1) desc false st = (.ok t, st'))
  ∧ (∀ (n : Nat) (desc : Desc) (isInput : Bool) (st : St) (t : Ty) (st' : St),
       jsPresence desc "required" = false →
       dispatch n desc isInput (computeTypeName desc isInput st).1 (computeTypeName desc isInput st).2 =
         (.ok t, st') →
       descToType (n+1) desc isInput st = (.ok t, st')) := by
  refine ⟨?_, ?_, ?_⟩
  · intro n desc st t st' hreq hd
    simp only [descToType, hreq, hd, Bool.and_self, if_true]
  · intro n desc st t st' hd
    simp only [descToType, hd, Bool.false_and, Bool.false_eq_true, if_false]
  · intro n desc isInput st t st' hreq hd
    simp only [descToType, hreq, hd, Bool.and_false, Bool.false_eq_true, if_false]

/-- C2 witness: a required string is non-null wrapped in input position
and left bare in output position. -/
theorem C2_witness :
    descToType 2 dReqStr true St.init = (.ok (.nonNull .strT), ⟨[], 1, 0⟩)
  ∧ descToType 2 dReqStr false St.init = (.ok .strT, ⟨[], 1, 0⟩) :=
  ⟨C2_required_nonnull_iff_input.1 1 dReqStr St.init .strT ⟨[], 1, 0⟩ rfl rfl,
   C2_required_nonnull_iff_input.2.1 1 dReqStr St.init .strT ⟨[], 1, 0⟩ rfl⟩

/-- C7: an array with exactly one non-forbidden item translates to a
list wrapping the direct translation of that item (never a singleton
union or composite type), non-null wrapped only per the required rule. -/
theorem C7_single_item_array_direct_list :
    ∀ (n : Nat) (desc : Desc) (isInput : Bool) (st : St) (item : Desc) (t : Ty) (st' : St),
      desc.dtype = "array" →
      desc.items.filter (fun i => !(jsPresence i "forbidden")) = [item] →
      descToType n item isInput (computeTypeName desc isInput st).2 = (.ok t, st') →
      ∃ stf, descToType (n+2) desc isInput st =
        (.ok (if isInput && jsPresence desc "required" then .nonNull (.listT t) else .listT t),
         stf) := by
  intro n desc isInput st item t st' hk hfil hit
  exact ⟨_, array_single_item n desc isInput st item t st' hk hfil hit⟩

/-- C7 witness: the single-item array `dArrOne` translates to a list of
the string scalar. -/
theorem C7_witness :
    ∃ stf, descToType 4 dArrOne false St.init = (.ok (.listT .strT), stf) :=
  C7_single_item_array_direct_list 2 dArrOne false St.init dString .strT ⟨[], 1, 0⟩
    rfl rfl rfl

/-- C9 (amended): a description of a kind outside the seven recognized
ones fails the build, but with the generic invocation TypeError of
calling the undefined dispatch-table entry (`JErr.notAFunction`) — not
an explicitly reported unsupported-type failure — and the error
propagates so the whole build aborts: (1) the translator returns the
TypeError; (2) a schema build whose first query field has such a kind
returns that same TypeError and no schema. -/
theorem C9_unknown_kind_generic_failure :
    (∀ (n : Nat) (desc : Desc) (isInput : Bool) (st : St),
       desc.dtype ∉ (["boolean", "date", "string", "number", "object", "array", "alternatives"] : List String) →
       descToType (n+2) desc isInput st =
         (.error (.notAFunction desc.dtype), (computeTypeName desc isInput st).2))
  ∧ (∀ (n : Nat) (k : String) (desc : Desc) (rest : List (String × Desc))
       (mutation : Option (List (String × Desc))) (st : St),
       desc.dtype ∉ (["boolean", "date", "string", "number", "object", "array", "alternatives"] : List String) →
       jsPresence desc "forbidden" = false →
       (joiql (n+4) (some ((k, desc) :: rest)) mutation st).1 =
         .error (.notAFunction desc.dtype)) := by
  refine ⟨unknownKind_dispatch_error, ?_⟩
  intro n k desc rest mutation st h hforb
  have hd := unknownKind_dispatch_error n desc false st h
  simp only [joiql, buildRoot, descsToFields, hforb, Bool.false_eq_true, if_false, hd]

/-- C9 counterexample: at the concrete unrecognized kind `binary` the
failure raised is the generic invocation TypeError — the dispatch-table
lookup yields no function — not an explicit unsupported-type report,
and it aborts the whole build. -/
theorem C9_counterexample :
    descToType 5 dBad false St.init = (.error (.notAFunction "binary"), ⟨[], 1, 0⟩)
  ∧ (joiql 9 (some [("f", dBad)]) none St.init).1 = .error (.notAFunction "binary") :=
  ⟨rfl, rfl⟩

/-- C9 witness: the amended theorem applied at the kind `binary`. -/
theorem C9_witness :
    descToType 5 dBad false St.init = (.error (.notAFunction "binary"), ⟨[], 1, 0⟩)
  ∧ (joiql 9 (some [("f", dBad)]) none St.init).1 = .error (.notAFunction "binary") :=
  ⟨C9_unknown_kind_generic_failure.1 3 dBad false St.init (by decide),
   C9_unknown_kind_generic_failure.2 5 "f" dBad [] none St.init (by decide) rfl⟩

/-- C10: an array with exactly one non-forbidden item additionally
stores the item's translated type in the cache under the array node's
own computed name when that name is free: (1) the full translation
equation including the store; (2) the final cache resolves the array's
name to the item's type; (3) a later object-kind description computing
that same name receives the item's stored type from the cache instead
of a freshly built node. -/
theorem C10_single_item_array_caches_item_type :
    ∀ (n : Nat) (desc : Desc) (isInput : Bool) (st : St) (item : Desc) (t : Ty) (st' : St),
      desc.dtype = "array" →
      desc.items.filter (fun i => !(jsPresence i "forbidden")) = [item] →
      descToType n item isInput (computeTypeName desc isInput st).2 = (.ok t, st') →
      lookupCache st'.cache (computeTypeName desc isInput st).1 = none →
      descToType (n+2) desc isInput st =
        (.ok (if isInput && jsPresence desc "required" then .nonNull (.listT t) else .listT t),
         { st' with cache := ((computeTypeName desc isInput st).1, t) :: st'.cache })
      ∧ lookupCache ({ st' with cache := ((computeTypeName desc isInput st).1, t) :: st'.cache }).cache
          (computeTypeName desc isInput st).1 = some t
      ∧ (∀ (m : Nat) (d2 : Desc) (nm2 : String),
          d2.dtype = "object" → firstMetaName d2.meta = some nm2 → nm2 ≠ "" →
          "" ++ nm2 = (computeTypeName desc isInput st).1 →
          descToType (m+2) d2 false
              { st' with cache := ((computeTypeName desc isInput st).1, t) :: st'.cache } =
            (.ok t, { st' with cache := ((computeTypeName desc isInput st).1, t) :: st'.cache })) := by
  intro n desc isInput st item t st' hk hfil hit hc
  have h1 := array_single_item n desc isInput st item t st' hk hfil hit
  simp only [hc, Option.isNone_none, if_true] at h1
  refine ⟨h1, by simp [lookupCache], ?_⟩
  intro m d2 nm2 hk2 hn2 hne2 heq
  have hlook : lookupCache
      ({ st' with cache := ((computeTypeName desc isInput st).1, t) :: st'.cache }).cache
      ((if false then "Input" else "") ++ nm2) = some t := by
    show lookupCache (((computeTypeName desc isInput st).1, t) :: st'.cache) ("" ++ nm2) = some t
    rw [heq]
    simp [lookupCache]
  have h2 := obj_cache_hit m d2 false _ nm2 t hk2 hn2 hne2 hlook
  simpa using h2

/-- C10 witness: `dArrOne` stores the string scalar under `Arr`; the
later object description named `Arr` receives that scalar from the
cache. -/
theorem C10_witness :
    descToType 4 dArrOne false St.init = (.ok (.listT .strT), ⟨[("Arr", Ty.strT)], 1, 0⟩)
  ∧ lookupCache [("Arr", Ty.strT)] "Arr" = some Ty.strT
  ∧ descToType 5 dObjArr false ⟨[("Arr", Ty.strT)], 1, 0⟩ =
      (.ok Ty.strT, ⟨[("Arr", Ty.strT)], 1, 0⟩) := by
  obtain ⟨a, b, c⟩ := C10_single_item_array_caches_item_type 2 dArrOne false St.init
    dString .strT ⟨[], 1, 0⟩ rfl rfl rfl rfl
  exact ⟨a, b, c 3 dObjArr "Arr" rfl rfl (by decide) rfl⟩

/-- C3: `forbidden` presence removes the element from every produced
mapping while non-forbidden siblings remain, shown as exact key
characterizations: (1) input-object fields, (2) output-object fields,
(3) argument mappings each keep exactly the non-forbidden entries in
order; (4) an output alternatives node builds its union from exactly
the non-forbidden branches; (5) an output multi-item array builds its
union from exactly the non-forbidden items. -/
theorem C3_forbidden_elements_dropped :
    (∀ (n : Nat) (children : List (String × Desc)) (st st' : St) (flds : List (String × Fld)),
       inputFields n children st = (.ok flds, st') →
       flds.map Prod.fst = (children.filter (fun p => !(jsPresence p.2 "forbidden"))).map Prod.fst)
  ∧ (∀ (n : Nat) (descs : List (String × Desc)) (st st' : St) (flds : List (String × Fld)),
       descsToFields n descs st = (.ok flds, st') →
       flds.map Prod.fst = (descs.filter (fun p => !(jsPresence p.2 "forbidden"))).map Prod.fst)
  ∧ (∀ (n : Nat) (args : List (String × Desc)) (st st' : St) (l : List (String × Ty)),
       argsToFields n args st = (.ok l, st') →
       l.map Prod.fst = (args.filter (fun p => !(jsPresence p.2 "forbidden"))).map Prod.fst)
  ∧ (∀ (n : Nat) (desc : Desc) (st st1 : St) (tys : List Ty),
       desc.dtype = "alternatives" →
       mapTypes n (desc.alts.filter (fun a => !(jsPresence a "forbidden"))) false
         (computeTypeName desc false st).2 = (.ok tys, st1) →
       lookupCache st1.cache (computeTypeName desc false st).1 = none →
       (∃ stf, descToType (n+3) desc false st =
          (.ok (.union st1.nextId (computeTypeName desc false st).1 desc.descr tys), stf))
       ∧ tys.length = (desc.alts.filter (fun a => !(jsPresence a "forbidden"))).length)
  ∧ (∀ (n : Nat) (desc : Desc) (st st1 : St) (a b : Desc) (rest : List Desc) (tys : List Ty),
       desc.dtype = "array" →
       desc.items.filter (fun i => !(jsPresence i "forbidden")) = a :: b :: rest →
       mapTypes n (a :: b :: rest) false
         (compositeName false (a :: b :: rest) (computeTypeName desc false st).2).2 =
         (.ok tys, st1) →
       lookupCache st1.cache
         (compositeName false (a :: b :: rest) (computeTypeName desc false st).2).1 = none →
       (∃ stf, descToType (n+3) desc false st =
          (.ok (.listT (.union st1.nextId
             (compositeName false (a :: b :: rest) (computeTypeName desc false st).2).1
             desc.descr tys)), stf))
       ∧ tys.length = (a :: b :: rest).length) := by
  refine ⟨?_, ?_, ?_, ?_, ?_⟩
  · intro n children st st' flds h
    exact inputFields_keys children n st st' flds h
  · intro n descs st st' flds h
    exact descsToFields_keys descs n st st' flds h
  · intro n args st st' l h
    exact argsToFields_keys args n st st' l h
  · intro n desc st st1 tys hk hm hc
    exact ⟨⟨_, alternatives_output_union n desc st st1 tys hk hm hc⟩,
           mapTypes_length _ n false _ st1 tys hm⟩
  · intro n desc st st1 a b rest tys hk hfil hm hc
    exact ⟨⟨_, array_multi_output_union n desc st st1 a b rest tys hk hfil hm hc⟩,
           mapTypes_length _ n false _ st1 tys hm⟩

/-- C3 witness: the forbidden sibling `b` vanishes from input fields,
output fields and arguments while `a` remains; the forbidden middle
branch of `dAltForb` and no others vanishes from its union; both union
member counts match the non-forbidden counts. -/
theorem C3_witness :
    List.map Prod.fst ([("a", (⟨Ty.strT, none, none⟩ : Fld))]) =
      List.map Prod.fst (([("a", dString), ("b", dForb)]).filter
        (fun p => !(jsPresence p.2 "forbidden")))
  ∧ List.map Prod.fst ([("a", (⟨Ty.strT, none, some ""⟩ : Fld))]) =
      List.map Prod.fst (([("a", dString), ("b", dForb)]).filter
        (fun p => !(jsPresence p.2 "forbidden")))
  ∧ List.map Prod.fst ([("a", Ty.strT)]) =
      List.map Prod.fst (([("a", dString), ("b", dForb)]).filter
        (fun p => !(jsPresence p.2 "forbidden")))
  ∧ ((∃ stf, descToType 8 dAltForb false St.init =
        (.ok (.union 0 "Alt" none [Ty.strT, Ty.floatT]), stf))
     ∧ ([Ty.strT, Ty.floatT] : List Ty).length =
         (dAltForb.alts.filter (fun a => !(jsPresence a "forbidden"))).length)
  ∧ ((∃ stf, descToType 8 dArrTwo false St.init =
        (.ok (.listT (.union 0 "StringOrNumber" none [Ty.strT, Ty.floatT])), stf))
     ∧ ([Ty.strT, Ty.floatT] : List Ty).length = ([dStrFoo, dNumber] : List Desc).length) :=
  ⟨C3_forbidden_elements_dropped.1 5 [("a", dString), ("b", dForb)] St.init ⟨[], 1, 0⟩
     [("a", ⟨Ty.strT, none, none⟩)] rfl,
   C3_forbidden_elements_dropped.2.1 5 [("a", dString), ("b", dForb)] St.init ⟨[], 1, 0⟩
     [("a", ⟨Ty.strT, none, some ""⟩)] rfl,
   C3_forbidden_elements_dropped.2.2.1 5 [("a", dString), ("b", dForb)] St.init ⟨[], 1, 0⟩
     [("a", Ty.strT)] rfl,
   C3_forbidden_elements_dropped.2.2.2.1 5 dAltForb St.init ⟨[], 2, 0⟩ [Ty.strT, Ty.floatT]
     rfl rfl rfl,
   C3_forbidden_elements_dropped.2.2.2.2 5 dArrTwo St.init ⟨[], 2, 0⟩ dStrFoo dNumber []
     [Ty.strT, Ty.floatT] rfl rfl rfl rfl⟩

/-- C4: the produced resolver (1) with an empty arguments object skips
validation entirely — for EVERY validation oracle — and calls the user
resolve function on the raw empty arguments; (2) with non-empty
arguments failing validation it raises the validation failure, for any
description, so the user resolver is never consulted; (3) with
non-empty arguments passing validation it calls the user resolver on
the validated/coerced values. -/
theorem C4_resolver_validation :
    (∀ (validate : JObj → Option (List (String × Desc)) → Except String JObj)
       (desc : Desc) (f : ResolveFn) (source : Option JObj) (root : JVal) (fieldName : String),
       firstMetaResolve desc.meta = some f →
       validatedResolve validate desc source [] root fieldName =
         .ok (some (f source [] root fieldName)))
  ∧ (∀ (validate : JObj → Option (List (String × Desc)) → Except String JObj)
       (desc : Desc) (source : Option JObj) (args : JObj) (root : JVal)
       (fieldName : String) (e : String),
       args ≠ [] →
       validate args (firstMetaArgs desc.meta) = .error e →
       validatedResolve validate desc source args root fieldName =
         .error (.validationError e))
  ∧ (∀ (validate : JObj → Option (List (String × Desc)) → Except String JObj)
       (desc : Desc) (f : ResolveFn) (source : Option JObj) (args : JObj) (root : JVal)
       (fieldName : String) (value : JObj),
       args ≠ [] →
       firstMetaResolve desc.meta = some f →
       validate args (firstMetaArgs desc.meta) = .ok value →
       validatedResolve validate desc source args root fieldName =
         .ok (some (f source value root fieldName))) := by
  refine ⟨?_, ?_, ?_⟩
  · intro validate desc f source root fieldName hres
    simp [validatedResolve, hres]
  · intro validate desc source args root fieldName e hne hval
    have hemp : args.isEmpty = false := by
      cases args with
      | nil => exact absurd rfl hne
      | cons a l => rfl
    simp [validatedResolve, hemp, hval]
  · intro validate desc f source args root fieldName value hne hres hval
    have hemp : args.isEmpty = false := by
      cases args with
      | nil => exact absurd rfl hne
      | cons a l => rfl
    simp [validatedResolve, hemp, hval, hres]

/-- C4 witness: with empty arguments even the always-failing oracle is
skipped and the raw resolver runs; with non-empty invalid arguments the
failure is raised; with non-empty valid arguments the resolver receives
the coerced values. -/
theorem C4_witness :
    validatedResolve errOracle dWithResolve none [] "r" "fld" =
      .ok (some (fResolve none [] "r" "fld"))
  ∧ validatedResolve errOracle dWithResolve none [("q", "2")] "r" "fld" =
      .error (.validationError "invalid")
  ∧ validatedResolve okOracle dWithResolve none [("q", "2")] "r" "fld" =
      .ok (some (fResolve none (("coerced", "1") :: [("q", "2")]) "r" "fld")) :=
  ⟨C4_resolver_validation.1 errOracle dWithResolve fResolve none "r" "fld" rfl,
   C4_resolver_validation.2.1 errOracle dWithResolve none [("q", "2")] "r" "fld" "invalid"
     (List.cons_ne_nil _ _) rfl,
   C4_resolver_validation.2.2 okOracle dWithResolve fResolve none [("q", "2")] "r" "fld"
     (("coerced", "1") :: [("q", "2")]) (List.cons_ne_nil _ _) rfl rfl⟩

/-- C5 (amended): (1) the composite name of a multi-item array is the
`Or`-join, in list order, of each item's capitalized TYPE KIND,
`Input`-prefixed in input position — the item's `name` metadata is
never consulted, because `d.meta` is an array whose `name` property is
undefined (an anonymous counter name appears only for an empty kind
string); (2) an output multi-item array's union carries exactly that
composite name; (3) an alternatives node does NOT use the composite
convention: its union carries the node's own computed name (first
metadata name, else an anonymous counter name). -/
theorem C5_composite_naming :
    (∀ (isInput : Bool) (items : List Desc) (st : St),
       (∀ d ∈ items, capitalize d.dtype ≠ "") →
       compositeName isInput items st =
         (String.intercalate "Or"
           (items.map (fun d => (if isInput then "Input" else "") ++ capitalize d.dtype)), st))
  ∧ (∀ (n : Nat) (desc : Desc) (st st1 : St) (a b : Desc) (rest : List Desc) (tys : List Ty),
       desc.dtype = "array" →
       desc.items.filter (fun i => !(jsPresence i "forbidden")) = a :: b :: rest →
       mapTypes n (a :: b :: rest) false
         (compositeName false (a :: b :: rest) (computeTypeName desc false st).2).2 =
         (.ok tys, st1) →
       lookupCache st1.cache
         (compositeName false (a :: b :: rest) (computeTypeName desc false st).2).1 = none →
       ∃ stf, descToType (n+3) desc false st =
         (.ok (.listT (.union st1.nextId
            (compositeName false (a :: b :: rest) (computeTypeName desc false st).2).1
            desc.descr tys)), stf))
  ∧ (∀ (n : Nat) (desc : Desc) (st st1 : St) (tys : List Ty),
       desc.dtype = "alternatives" →
       mapTypes n (desc.alts.filter (fun a => !(jsPresence a "forbidden"))) false
         (computeTypeName desc false st).2 = (.ok tys, st1) →
       lookupCache st1.cache (computeTypeName desc false st).1 = none →
       ∃ stf, descToType (n+3) desc false st =
         (.ok (.union st1.nextId (computeTypeName desc false st).1 desc.descr tys), stf)) := by
  refine ⟨compositeName_of_kinds, ?_, ?_⟩
  · intro n desc st st1 a b rest tys hk hfil hm hc
    exact ⟨_, array_multi_output_union n desc st st1 a b rest tys hk hfil hm hc⟩
  · intro n desc st st1 tys hk hm hc
    exact ⟨_, alternatives_output_union n desc st st1 tys hk hm hc⟩

/-- C5 counterexample: the array over a string item named `Foo` and a
number synthesizes `StringOrNumber` — not `FooOrNumber` as the item's
name metadata would give — and the alternatives node named `Bar`
synthesizes `Bar`, not the composite convention's `StringOrNumber`. -/
theorem C5_counterexample :
    (descToType 9 dArrTwo false St.init).1 =
      .ok (.listT (.union 0 "StringOrNumber" none [.strT, .floatT]))
  ∧ ("StringOrNumber" : String) ≠ "FooOrNumber"
  ∧ (descToType 9 dAltBar false St.init).1 = .ok (.union 0 "Bar" none [.strT, .floatT])
  ∧ ("Bar" : String) ≠ "StringOrNumber" :=
  ⟨rfl, by decide, rfl, by decide⟩

/-- C5 witness: the composite name of `[dStrFoo, dNumber]` ignores the
`Foo` name metadata; the array's union is named by the composite name;
the alternatives' union is named `Bar`, the node's own name. -/
theorem C5_witness :
    compositeName false [dStrFoo, dNumber] St.init =
      (String.intercalate "Or"
        ([dStrFoo, dNumber].map (fun d => (if false then "Input" else "") ++ capitalize d.dtype)),
       St.init)
  ∧ (∃ stf, descToType 8 dArrTwo false St.init =
      (.ok (.listT (.union 0 "StringOrNumber" none [Ty.strT, Ty.floatT])), stf))
  ∧ (∃ stf, descToType 8 dAltBar false St.init =
      (.ok (.union 0 "Bar" none [Ty.strT, Ty.floatT]), stf)) :=
  ⟨C5_composite_naming.1 false [dStrFoo, dNumber] St.init (by decide),
   C5_composite_naming.2.1 5 dArrTwo St.init ⟨[], 2, 0⟩ dStrFoo dNumber [] [Ty.strT, Ty.floatT]
     rfl rfl rfl rfl,
   C5_composite_naming.2.2 5 dAltBar St.init ⟨[], 2, 0⟩ [Ty.strT, Ty.floatT] rfl rfl rfl⟩

/-- C6: the union's runtime member-resolution function returns the first
candidate in list order whose condition holds — the first metadata
annotation's `isTypeOf` predicate accepting the value when present,
else exact equality of the value's key list with the candidate's
child-name list; a predicate-matching candidate is returned without its
key set being examined. -/
theorem C6_union_resolution_first_match :
    ∀ (items : List Desc) (types : List Ty) (val : JObj),
      items.length = types.length →
      unionResolveType items types val = firstMatchingMember val items types := by
  intro items types val h
  have ha := unionResolve_aux items 0 types val (by omega)
  simpa [unionResolveType, List.enum] using ha

/-- C6 witness: the candidate carrying an `isTypeOf` predicate that
accepts the value is returned even though the other candidate's key set
structurally matches the value. -/
theorem C6_witness :
    unionResolveType [cIsTypeOf, cStruct] [Ty.intT, Ty.floatT] vKmatch =
      firstMatchingMember vKmatch [cIsTypeOf, cStruct] [Ty.intT, Ty.floatT]
  ∧ unionResolveType [cIsTypeOf, cStruct] [Ty.intT, Ty.floatT] vKmatch = some Ty.intT :=
  ⟨C6_union_resolution_first_match [cIsTypeOf, cStruct] [Ty.intT, Ty.floatT] vKmatch rfl, rfl⟩

/-- C8: (1) an input-position composite synthesis that is not already
cached (after translating its candidates) yields a single
InputObjectType over the field synthesis of the flat merge of all
candidates' children, with no conflict detection or error; (2) the flat
merge reads as last-candidate-wins: a key's value is the one from the
last source carrying that key (sources with unique keys, as JavaScript
objects have). -/
theorem C8_input_merge_flat_last_wins :
    (∀ (n : Nat) (typeName : String) (desc : Desc) (items : List Desc)
       (st st1 st2 : St) (types : List Ty) (flds : List (String × Fld)),
       mapTypes n items true st = (.ok types, st1) →
       lookupCache st1.cache typeName = none →
       descsToFields n (assignAll (items.map Desc.children)) st1 = (.ok flds, st2) →
       makeArrayAlternativeType (n+1) true typeName desc items st =
         (.ok (.inputObj st2.nextId typeName desc.descr flds),
          { st2 with nextId := st2.nextId + 1 }))
  ∧ (∀ (sources : List (List (String × Desc))) (k : String),
       (∀ src ∈ sources, (src.map Prod.fst).Nodup) →
       lookupD (assignAll sources) k = lastWins sources k) :=
  ⟨makeAAT_input, lookupD_assignAll⟩

/-- The input objects built for `dObjA` and `dObjB`. -/
def tyInA : Ty :=
  .inputObj 0 "InputA" none [("x", ⟨.strT, none, none⟩), ("y", ⟨.strT, none, none⟩)]

/-- The input object built for `dObjB`. -/
def tyInB : Ty :=
  .inputObj 1 "InputB" none [("x", ⟨.floatT, none, none⟩), ("z", ⟨.strT, none, none⟩)]

/-- The merged field synthesis of `dObjA` and `dObjB`'s children:
`x` comes from `dObjB` (last wins), `y` from `dObjA`, `z` from `dObjB`. -/
def mergedFlds : List (String × Fld) :=
  [("x", ⟨.floatT, none, some ""⟩), ("y", ⟨.strT, none, some ""⟩), ("z", ⟨.strT, none, some ""⟩)]

/-- C8 witness: merging `dObjA` and `dObjB` in input position yields one
InputObjectType whose field `x` took `dObjB`'s (number) child — the
later candidate overwrote the earlier — with `y` and `z` merged in. -/
theorem C8_witness :
    makeArrayAlternativeType 21 true "InputM" dAltAB [dObjA, dObjB] St.init =
      (.ok (.inputObj 2 "InputM" none mergedFlds),
       ⟨[("InputB", tyInB), ("InputA", tyInA)], 7, 3⟩)
  ∧ lookupD (assignAll ([dObjA, dObjB].map Desc.children)) "x" =
      lastWins ([dObjA, dObjB].map Desc.children) "x"
  ∧ lookupD (assignAll ([dObjA, dObjB].map Desc.children)) "x" = some dNumber :=
  ⟨C8_input_merge_flat_last_wins.1 20 "InputM" dAltAB [dObjA, dObjB] St.init
     ⟨[("InputB", tyInB), ("InputA", tyInA)], 4, 2⟩
     ⟨[("InputB", tyInB), ("InputA", tyInA)], 7, 2⟩ [tyInA, tyInB] mergedFlds rfl rfl rfl,
   C8_input_merge_flat_last_wins.2 ([dObjA, dObjB].map Desc.children) "x" (by decide),
   rfl⟩
